import Mathlib

/-!
Verification of the tiny-deferred library (`deferred.js`): a shallow
embedding of the Deferred state machine, its callback-invocation helper
`call`, the registration operations `done` / `fail` / `always`, and the
settlement operations `resolve` / `resolveWith` / `rejectWith` / `reject`.

JavaScript values are modelled by `JSVal` (with a distinguished
`undef` for `undefined`).  A callback is modelled as a pure function from
an invocation context and an argument list to a return value; `undef`
models the absence of a return value.  Since the original mutates the
shared argument array in place (`args[0] = newArg`) and fires callbacks
synchronously, the embedding threads the argument list and the deferred
state explicitly and records a trace of invocations: each trace entry is
the identity of the fired callback together with the context and the
argument list it was applied to.
-/

/-- Model of a JavaScript value.  `undef` is `undefined`; `obj` stands for
an arbitrary object identified by a tag (used for callback contexts). -/
inductive JSVal where
  | undef
  | null
  | bool (b : Bool)
  | num (n : Int)
  | str (s : String)
  | obj (tag : String)
  deriving DecidableEq, Repr

/-- `PENDING = 1` in the source. -/
def PENDING : Nat := 1

/-- `RESOLVED = 2` in the source. -/
def RESOLVED : Nat := 2

/-- `REJECTED = 3` in the source. -/
def REJECTED : Nat := 3

/-- The argument accepted by `call` and the registration methods: a single
callable (with an identity `id` used only by the trace), an array of such
arguments (arrays nest to arbitrary depth), or any other value (neither a
function nor an array). -/
inductive CbTarget where
  | fn (id : Nat) (f : JSVal → List JSVal → JSVal)
  | arr (list : List CbTarget)
  | other (v : JSVal)

/-- One recorded invocation: callback identity, context (`this`), and the
argument list the callback was applied to. -/
abbrev TraceEntry := Nat × JSVal × List JSVal

/-- The sequence of invocations performed by an operation, in order. -/
abbrev Trace := List TraceEntry

mutual

/-- The `call` helper of the source.  If the target is a function, apply
it and — when the return value is not `undefined` — overwrite position 0
of the argument list (`args[0] = newArg`; when the list is empty this is a
no-op for subsequent `apply` spreads, matching `List.set` out of range).
If the target is an array, recurse through it in order, threading the
(shared, mutated) argument list.  Anything else is ignored.  Returns the
argument list after mutation together with the invocation trace. -/
def call : CbTarget → JSVal → List JSVal → List JSVal × Trace
  | CbTarget.fn id f, context, args =>
      let newArg := f context args
      (if newArg = JSVal.undef then args else args.set 0 newArg,
       [(id, context, args)])
  | CbTarget.arr list, context, args => callList list context args
  | CbTarget.other _, _, args => (args, [])

/-- The `Array.isArray` branch of `call`: fire each element in order,
threading the argument list and concatenating the traces. -/
def callList : List CbTarget → JSVal → List JSVal → List JSVal × Trace
  | [], _, args => (args, [])
  | t :: ts, context, args =>
      let r := call t context args
      let r' := callList ts context r.1
      (r'.1, r.2 ++ r'.2)

end

/-- The `events` object of a pending Deferred: the three registration
queues. -/
structure Events where
  done : List CbTarget
  fail : List CbTarget
  always : List CbTarget

/-- The empty queues a fresh Deferred starts with. -/
def Events.empty : Events := ⟨[], [], []⟩

/-- The Deferred object.  `args` is `none` (null) before settlement;
`events` is `none` once the queues have been purged by settlement. -/
structure Deferred where
  state : Nat
  context : JSVal
  args : Option (List JSVal)
  events : Option Events

/-- `new Deferred()`: pending, null context, null args, empty queues. -/
def Deferred.init : Deferred :=
  { state := PENDING, context := JSVal.null, args := none,
    events := some Events.empty }

/-- `Deferred.prototype.done`: fire immediately when resolved (mutating
the stored argument list in place), queue when pending, discard when
rejected. -/
def Deferred.done (d : Deferred) (cb : CbTarget) : Deferred × Trace :=
  if d.state = RESOLVED then
    let r := call cb d.context (d.args.getD [])
    ({ d with args := d.args.map fun _ => r.1 }, r.2)
  else if d.state = PENDING then
    ({ d with events := d.events.map fun e => { e with done := e.done ++ [cb] } }, [])
  else
    (d, [])

/-- `Deferred.prototype.fail`: fire immediately when rejected, queue when
pending, discard when resolved. -/
def Deferred.fail (d : Deferred) (cb : CbTarget) : Deferred × Trace :=
  if d.state = REJECTED then
    let r := call cb d.context (d.args.getD [])
    ({ d with args := d.args.map fun _ => r.1 }, r.2)
  else if d.state = PENDING then
    ({ d with events := d.events.map fun e => { e with fail := e.fail ++ [cb] } }, [])
  else
    (d, [])

/-- `Deferred.prototype.always`: fire immediately when not pending, queue
otherwise. -/
def Deferred.always (d : Deferred) (cb : CbTarget) : Deferred × Trace :=
  if d.state ≠ PENDING then
    let r := call cb d.context (d.args.getD [])
    ({ d with args := d.args.map fun _ => r.1 }, r.2)
  else
    ({ d with events := d.events.map fun e => { e with always := e.always ++ [cb] } }, [])

/-- The object as `resolve` / `rejectWith` leave it right after the state
transition, the storing of `args` and the purge of `events` — before any
callback runs. -/
def Deferred.settled (d : Deferred) (s : Nat) (a : List JSVal) : Deferred :=
  { state := s, context := d.context, args := some a, events := none }

/-- `Deferred.prototype.resolve`: when pending, set state to `RESOLVED`,
store the arguments, capture the `done` and `always` queues, purge
`events`, then fire `done` followed by `always` with the stored context
and the shared argument list.  Otherwise a no-op. -/
def Deferred.resolve (d : Deferred) (a : List JSVal) : Deferred × Trace :=
  if d.state = PENDING then
    let e := d.events.getD Events.empty
    let mid := d.settled RESOLVED a
    let r1 := callList e.done mid.context a
    let r2 := callList e.always mid.context r1.1
    ({ mid with args := some r2.1 }, r1.2 ++ r2.2)
  else
    (d, [])

/-- `Deferred.prototype.resolveWith`: when pending, set the context from
the first argument and delegate the remaining arguments to `resolve`.
The argument list is the full JavaScript `arguments` object, so the
context is its head (`undefined` when absent). -/
def Deferred.resolveWith (d : Deferred) (a : List JSVal) : Deferred × Trace :=
  if d.state = PENDING then
    Deferred.resolve { d with context := a.headD JSVal.undef } a.tail
  else
    (d, [])

/-- `Deferred.prototype.rejectWith`: the mirror of `resolve` — set state
to `REJECTED`, store the arguments, capture and purge `fail` and
`always`, fire `fail` then `always`. -/
def Deferred.rejectWith (d : Deferred) (a : List JSVal) : Deferred × Trace :=
  if d.state = PENDING then
    let e := d.events.getD Events.empty
    let mid := d.settled REJECTED a
    let r1 := callList e.fail mid.context a
    let r2 := callList e.always mid.context r1.1
    ({ mid with args := some r2.1 }, r1.2 ++ r2.2)
  else
    (d, [])

/-- `Deferred.prototype.reject`: when pending, set the context from the
first argument and then call `this.reject` (not `rejectWith`) on the
remaining arguments.  The recursion never changes `state`, so on a
pending object it never bottoms out; `fuel` models the call-stack budget,
and `none` models the call not returning (stack exhaustion). -/
def Deferred.reject : Nat → Deferred → List JSVal → Option (Deferred × Trace)
  | 0, _, _ => none
  | fuel + 1, d, a =>
    if d.state = PENDING then
      Deferred.reject fuel { d with context := a.headD JSVal.undef } a.tail
    else
      some (d, [])

/-! ### Basic lemmas about the invocation helper -/

mutual

/-- The identities of the callables reachable in a target, in firing
order (a flattening of the nested array structure). -/
def idsOf : CbTarget → List Nat
  | CbTarget.fn id _ => [id]
  | CbTarget.arr list => idsList list
  | CbTarget.other _ => []

/-- `idsOf` over a list of targets, concatenated in order. -/
def idsList : List CbTarget → List Nat
  | [] => []
  | t :: ts => idsOf t ++ idsList ts

end

theorem call_ids :
    ∀ (t : CbTarget) (ctx : JSVal) (args : List JSVal),
      ((call t ctx args).2).map (fun e => e.1) = idsOf t := by
  apply call.induct
    (fun t ctx args => ((call t ctx args).2).map (fun e => e.1) = idsOf t)
    (fun l ctx args => ((callList l ctx args).2).map (fun e => e.1) = idsList l)
  · intro id f ctx args; simp [call, idsOf]
  · intro list ctx args ih; simpa [call, idsOf] using ih
  · intro v ctx args; simp [call, idsOf]
  · intro ctx args; simp [callList, idsList]
  · intro t ts ctx args r ih1 ih2
    simp [callList, idsList, List.map_append, ih1, ih2]

theorem callList_ids :
    ∀ (l : List CbTarget) (ctx : JSVal) (args : List JSVal),
      ((callList l ctx args).2).map (fun e => e.1) = idsList l := by
  apply callList.induct
    (fun t ctx args => ((call t ctx args).2).map (fun e => e.1) = idsOf t)
    (fun l ctx args => ((callList l ctx args).2).map (fun e => e.1) = idsList l)
  · intro id f ctx args; simp [call, idsOf]
  · intro list ctx args ih; simpa [call, idsOf] using ih
  · intro v ctx args; simp [call, idsOf]
  · intro ctx args; simp [callList, idsList]
  · intro t ts ctx args r ih1 ih2
    simp [callList, idsList, List.map_append, ih1, ih2]

theorem callList_length :
    ∀ (l : List CbTarget) (ctx : JSVal) (args : List JSVal),
      ((callList l ctx args).1).length = args.length := by
  apply callList.induct
    (fun t ctx args => ((call t ctx args).1).length = args.length)
    (fun l ctx args => ((callList l ctx args).1).length = args.length)
  · intro id f ctx args
    by_cases h : f ctx args = JSVal.undef <;> simp [call, h]
  · intro list ctx args ih; simpa [call] using ih
  · intro v ctx args; simp [call]
  · intro ctx args; simp [callList]
  · intro t ts ctx args r ih1 ih2
    simp only [callList]
    exact ih2.trans ih1

theorem callList_append (l1 l2 : List CbTarget) (ctx : JSVal) (args : List JSVal) :
    callList (l1 ++ l2) ctx args
      = ((callList l2 ctx (callList l1 ctx args).1).1,
         (callList l1 ctx args).2 ++ (callList l2 ctx (callList l1 ctx args).1).2) := by
  induction l1 generalizing args with
  | nil => simp [callList]
  | cons t ts ih => simp [callList, ih, List.append_assoc]

/-! ### Sequences of registration calls -/

/-- One registration call on a Deferred: `done(cb)`, `fail(cb)` or
`always(cb)`. -/
inductive Reg where
  | rdone (cb : CbTarget)
  | rfail (cb : CbTarget)
  | ralways (cb : CbTarget)

/-- Perform one registration call. -/
def applyReg (d : Deferred) : Reg → Deferred × Trace
  | Reg.rdone cb => d.done cb
  | Reg.rfail cb => d.fail cb
  | Reg.ralways cb => d.always cb

/-- Perform a sequence of registration calls in order, concatenating the
traces of any immediate firings. -/
def applyRegs (d : Deferred) : List Reg → Deferred × Trace
  | [] => (d, [])
  | r :: rs =>
      let p := applyReg d r
      let q := applyRegs p.1 rs
      (q.1, p.2 ++ q.2)

/-- The targets passed to `done` in a registration sequence, in order. -/
def donesOf : List Reg → List CbTarget
  | [] => []
  | Reg.rdone cb :: rs => cb :: donesOf rs
  | Reg.rfail _ :: rs => donesOf rs
  | Reg.ralways _ :: rs => donesOf rs

/-- The targets passed to `fail` in a registration sequence, in order. -/
def failsOf : List Reg → List CbTarget
  | [] => []
  | Reg.rdone _ :: rs => failsOf rs
  | Reg.rfail cb :: rs => cb :: failsOf rs
  | Reg.ralways _ :: rs => failsOf rs

/-- The targets passed to `always` in a registration sequence, in order. -/
def alwaysOf : List Reg → List CbTarget
  | [] => []
  | Reg.rdone _ :: rs => alwaysOf rs
  | Reg.rfail _ :: rs => alwaysOf rs
  | Reg.ralways cb :: rs => cb :: alwaysOf rs

/-- On a pending Deferred, a sequence of registrations fires nothing and
appends each target to its queue, in order. -/
theorem applyRegs_pending (rs : List Reg) (d : Deferred) (e : Events)
    (h1 : d.state = PENDING) (h2 : d.events = some e) :
    applyRegs d rs
      = ({ d with events := some ⟨e.done ++ donesOf rs, e.fail ++ failsOf rs,
                                  e.always ++ alwaysOf rs⟩ }, []) := by
  induction rs generalizing d e with
  | nil =>
    simp [applyRegs, donesOf, failsOf, alwaysOf, ← h2]
  | cons r rs ih =>
    cases r with
    | rdone cb =>
      have hstep : applyReg d (Reg.rdone cb)
          = ({ d with events := some { e with done := e.done ++ [cb] } }, []) := by
        simp [applyReg, Deferred.done, h1, h2, PENDING, RESOLVED]
      simp only [applyRegs, hstep]
      rw [ih { d with events := some { e with done := e.done ++ [cb] } }
            { e with done := e.done ++ [cb] } h1 rfl]
      simp [donesOf, failsOf, alwaysOf, List.append_assoc]
    | rfail cb =>
      have hstep : applyReg d (Reg.rfail cb)
          = ({ d with events := some { e with fail := e.fail ++ [cb] } }, []) := by
        simp [applyReg, Deferred.fail, h1, h2, PENDING, REJECTED]
      simp only [applyRegs, hstep]
      rw [ih { d with events := some { e with fail := e.fail ++ [cb] } }
            { e with fail := e.fail ++ [cb] } h1 rfl]
      simp [failsOf, donesOf, alwaysOf, List.append_assoc]
    | ralways cb =>
      have hstep : applyReg d (Reg.ralways cb)
          = ({ d with events := some { e with always := e.always ++ [cb] } }, []) := by
        simp [applyReg, Deferred.always, h1, h2, PENDING]
      simp only [applyRegs, hstep]
      rw [ih { d with events := some { e with always := e.always ++ [cb] } }
            { e with always := e.always ++ [cb] } h1 rfl]
      simp [alwaysOf, donesOf, failsOf, List.append_assoc]

/-! ### Concrete settled objects used by witnesses -/

/-- A Deferred resolved with the single value `1` and no registered
callbacks. -/
def dResolved : Deferred := (Deferred.init.resolve [JSVal.num 1]).1

/-- A Deferred rejected (via `rejectWith`) with the single value `2` and
no registered callbacks. -/
def dRejected : Deferred := (Deferred.init.rejectWith [JSVal.num 2]).1

/-! ### The claims -/

/-- C1: on a pending Deferred, the implicit-context reject-family
settlement operation (`rejectWith` in the source; the naming of the
reject pair is swapped relative to `resolve`/`resolveWith`) sets the state
to `REJECTED`, stores the given values as `args`, purges the queues, and
fires the captured `fail` queue followed by the captured `always` queue,
each with the stored (unchanged) context and the shared argument list. -/
theorem rejectWith_settles (d : Deferred) (a : List JSVal) (e : Events)
    (h1 : d.state = PENDING) (h2 : d.events = some e) :
    d.rejectWith a
      = ({ state := REJECTED, context := d.context,
           args := some (callList e.always d.context (callList e.fail d.context a).1).1,
           events := none },
         (callList e.fail d.context a).2
           ++ (callList e.always d.context (callList e.fail d.context a).1).2) := by
  simp [Deferred.rejectWith, Deferred.settled, h1, h2]

/-- Witness for C1: a pending Deferred with one registered `fail`
callback, rejected with the value `"x"`, ends rejected with `args`
`["x"]`, purged queues, and exactly that callback fired with the null
context and `["x"]`. -/
theorem rejectWith_settles_witness :
    (Deferred.init.fail (CbTarget.fn 1 fun _ _ => JSVal.undef)).1.rejectWith [JSVal.str "x"]
      = ({ state := REJECTED, context := JSVal.null, args := some [JSVal.str "x"],
           events := none },
         [(1, JSVal.null, [JSVal.str "x"])]) := by
  have h := rejectWith_settles
    (Deferred.init.fail (CbTarget.fn 1 fun _ _ => JSVal.undef)).1 [JSVal.str "x"]
    ⟨[], [CbTarget.fn 1 fun _ _ => JSVal.undef], []⟩ rfl rfl
  simpa [Deferred.fail, Deferred.init, callList, call] using h

/-- On any pending Deferred, `reject` never returns, whatever the
call-stack budget: each recursive call strips one argument and leaves the
state `PENDING`, so the recursion never reaches the non-pending exit. -/
theorem reject_pending_never_returns (fuel : Nat) (d : Deferred) (a : List JSVal)
    (h : d.state = PENDING) : Deferred.reject fuel d a = none := by
  induction fuel generalizing d a with
  | zero => rfl
  | succ n ih =>
    simp only [Deferred.reject, h]
    simp only [if_pos]
    exact ih _ _ rfl

/-- C2: refuted by the code — `reject` on a pending Deferred calls
`this.reject` instead of `this.rejectWith`, never changes the state, and
so recurses forever (a stack overflow at runtime): no amount of fuel makes
it return, on a fresh Deferred with any arguments. -/
theorem reject_diverges_on_pending (fuel : Nat) (a : List JSVal) :
    Deferred.reject fuel Deferred.init a = none :=
  reject_pending_never_returns fuel Deferred.init a rfl

/-- C3: on a Deferred that is no longer pending, every settlement
operation is a true no-op: it returns the object unchanged (state, args,
context and purged queues intact) and fires no callback. -/
theorem settled_settlement_noop (d : Deferred) (a : List JSVal) (fuel : Nat)
    (h : d.state ≠ PENDING) :
    d.resolve a = (d, []) ∧ d.resolveWith a = (d, [])
      ∧ d.rejectWith a = (d, []) ∧ Deferred.reject (fuel + 1) d a = some (d, []) := by
  refine ⟨?_, ?_, ?_, ?_⟩ <;>
    simp [Deferred.resolve, Deferred.resolveWith, Deferred.rejectWith, Deferred.reject, h]

/-- Witness for C3: a resolved Deferred; a second settlement by any of
the four operations returns it unchanged and fires nothing. -/
theorem settled_settlement_noop_witness :
    dResolved.state ≠ PENDING
      ∧ (dResolved.resolve [JSVal.num 7] = (dResolved, [])
         ∧ dResolved.resolveWith [JSVal.num 7] = (dResolved, [])
         ∧ dResolved.rejectWith [JSVal.num 7] = (dResolved, [])
         ∧ Deferred.reject 1 dResolved [JSVal.num 7] = some (dResolved, [])) :=
  ⟨by decide, settled_settlement_noop dResolved [JSVal.num 7] 0 (by decide)⟩

/-- C4: for any sequence of `done`/`fail`/`always` registrations on a
fresh Deferred followed by one `resolve`: the registrations themselves
fire nothing, and the settlement trace is exactly the `done` batch (in
registration order) followed by the `always` batch (in registration
order) — so every `done` callback fires exactly once before any `always`
callback, and no `fail` callback ever fires. -/
theorem resolve_fires_done_then_always (rs : List Reg) (a : List JSVal) :
    (applyRegs Deferred.init rs).2 = []
      ∧ ((applyRegs Deferred.init rs).1.resolve a).2
          = (callList (donesOf rs) JSVal.null a).2
            ++ (callList (alwaysOf rs) JSVal.null (callList (donesOf rs) JSVal.null a).1).2
      ∧ (((applyRegs Deferred.init rs).1.resolve a).2).map (fun e => e.1)
          = idsList (donesOf rs) ++ idsList (alwaysOf rs) := by
  have h := applyRegs_pending rs Deferred.init Events.empty rfl rfl
  refine ⟨?_, ?_, ?_⟩
  · rw [h]
  · rw [h]
    simp [Deferred.resolve, Deferred.settled, Deferred.init, Events.empty, PENDING]
  · rw [h]
    simp [Deferred.resolve, Deferred.settled, Deferred.init, Events.empty, PENDING,
      List.map_append, callList_ids]

/-- C5: within one invocation batch, a callback that returns any value
other than `undefined` (null, 0, false, "" included) overwrites position
0 of the shared argument list before the rest of the batch runs, and a
callback that returns `undefined` leaves the list untouched: the batch
after it always continues with `args.set 0 v` when `v ≠ undefined` and
with `args` unchanged otherwise. -/
theorem batch_return_value_chains (i : Nat) (f : JSVal → List JSVal → JSVal)
    (rest : List CbTarget) (ctx : JSVal) (args : List JSVal) :
    callList (CbTarget.fn i f :: rest) ctx args
      = (let v := f ctx args
         let args1 := if v = JSVal.undef then args else args.set 0 v
         ((callList rest ctx args1).1, (i, ctx, args) :: (callList rest ctx args1).2)) := by
  simp [callList, call]

/-- C6: `done(cb)` fires `cb` (through nested arrays, via `call`) with
the stored context and argument list when resolved, queues it silently
when pending, and discards it when rejected; `fail(cb)` is the mirror
with resolved and rejected swapped. -/
theorem done_fail_by_state (d : Deferred) (cb : CbTarget) :
    (d.state = RESOLVED →
        (d.done cb).2 = (call cb d.context (d.args.getD [])).2
          ∧ d.fail cb = (d, []))
      ∧ (d.state = PENDING →
          d.done cb
              = ({ d with events := d.events.map fun e => { e with done := e.done ++ [cb] } }, [])
            ∧ d.fail cb
              = ({ d with events := d.events.map fun e => { e with fail := e.fail ++ [cb] } }, []))
      ∧ (d.state = REJECTED →
          d.done cb = (d, [])
            ∧ (d.fail cb).2 = (call cb d.context (d.args.getD [])).2) := by
  refine ⟨fun h => ⟨?_, ?_⟩, fun h => ⟨?_, ?_⟩, fun h => ⟨?_, ?_⟩⟩ <;>
    simp [Deferred.done, Deferred.fail, h, PENDING, RESOLVED, REJECTED]

/-- Witness for C6: the three states exercised on concrete objects. -/
theorem done_fail_by_state_witness :
    ((dResolved.done (CbTarget.fn 1 fun _ _ => JSVal.undef)).2
        = (call (CbTarget.fn 1 fun _ _ => JSVal.undef) dResolved.context
            (dResolved.args.getD [])).2
      ∧ dResolved.fail (CbTarget.fn 1 fun _ _ => JSVal.undef) = (dResolved, []))
    ∧ (Deferred.init.done (CbTarget.fn 1 fun _ _ => JSVal.undef)
          = ({ Deferred.init with
               events := Deferred.init.events.map fun e =>
                 { e with done := e.done ++ [CbTarget.fn 1 fun _ _ => JSVal.undef] } }, [])
        ∧ Deferred.init.fail (CbTarget.fn 1 fun _ _ => JSVal.undef)
          = ({ Deferred.init with
               events := Deferred.init.events.map fun e =>
                 { e with fail := e.fail ++ [CbTarget.fn 1 fun _ _ => JSVal.undef] } }, []))
    ∧ (dRejected.done (CbTarget.fn 1 fun _ _ => JSVal.undef) = (dRejected, [])
        ∧ (dRejected.fail (CbTarget.fn 1 fun _ _ => JSVal.undef)).2
          = (call (CbTarget.fn 1 fun _ _ => JSVal.undef) dRejected.context
              (dRejected.args.getD [])).2) :=
  ⟨(done_fail_by_state dResolved (CbTarget.fn 1 fun _ _ => JSVal.undef)).1 (by decide),
   (done_fail_by_state Deferred.init (CbTarget.fn 1 fun _ _ => JSVal.undef)).2.1 (by decide),
   (done_fail_by_state dRejected (CbTarget.fn 1 fun _ _ => JSVal.undef)).2.2 (by decide)⟩

/-- C7 counterexample: resolve with `1`, then register a `done` callback
returning `2` (which fires and overwrites position 0 of the stored
argument list), then register another `done` callback: the latter is
invoked with `[2]`, not with the argument list `[1]` fixed at the
settlement moment. -/
theorem done_after_settlement_not_original_args :
    ((((Deferred.init.resolve [JSVal.num 1]).1.done
            (CbTarget.fn 1 fun _ _ => JSVal.num 2)).1.done
          (CbTarget.fn 2 fun _ _ => JSVal.undef)).2
        = [(2, JSVal.null, [JSVal.num 2])])
      ∧ ((((Deferred.init.resolve [JSVal.num 1]).1.done
              (CbTarget.fn 1 fun _ _ => JSVal.num 2)).1.done
            (CbTarget.fn 2 fun _ _ => JSVal.undef)).2
          ≠ [(2, JSVal.null, [JSVal.num 1])]) :=
  ⟨by decide, by decide⟩

/-- C7 amended: a callback registered after settlement through the
matching operation fires exactly once, immediately and synchronously
within the registration call, with the stored context and the currently
stored argument list — the settlement values except that position 0 may
have been overwritten by value-returning callbacks fired in between. -/
theorem cb_after_settlement (d : Deferred) (id : Nat) (f : JSVal → List JSVal → JSVal) :
    (d.state = RESOLVED →
        (d.done (CbTarget.fn id f)).2 = [(id, d.context, d.args.getD [])])
      ∧ (d.state = REJECTED →
          (d.fail (CbTarget.fn id f)).2 = [(id, d.context, d.args.getD [])])
      ∧ (d.state ≠ PENDING →
          (d.always (CbTarget.fn id f)).2 = [(id, d.context, d.args.getD [])]) := by
  refine ⟨fun h => ?_, fun h => ?_, fun h => ?_⟩
  · simp [Deferred.done, h, call]
  · simp [Deferred.fail, h, call]
  · simp [Deferred.always, h, call]

/-- Witness for the amended C7: late `done` on a resolved object, and
late `fail` / `always` on a rejected object, each fire exactly once with
the stored context and argument list. -/
theorem cb_after_settlement_witness :
    ((dResolved.done (CbTarget.fn 3 fun _ _ => JSVal.undef)).2
        = [(3, dResolved.context, dResolved.args.getD [])])
      ∧ ((dRejected.fail (CbTarget.fn 4 fun _ _ => JSVal.undef)).2
          = [(4, dRejected.context, dRejected.args.getD [])])
      ∧ ((dRejected.always (CbTarget.fn 5 fun _ _ => JSVal.undef)).2
          = [(5, dRejected.context, dRejected.args.getD [])]) :=
  ⟨(cb_after_settlement dResolved 3 (fun _ _ => JSVal.undef)).1 (by decide),
   (cb_after_settlement dRejected 4 (fun _ _ => JSVal.undef)).2.1 (by decide),
   (cb_after_settlement dRejected 5 (fun _ _ => JSVal.undef)).2.2 (by decide)⟩

/-- C8: a target that is neither a function nor an array is silently
skipped by the invocation helper (alone or anywhere inside a nested
batch), and registering it fires nothing in any state of the Deferred. -/
theorem noncallable_ignored (v ctx : JSVal) (args : List JSVal)
    (l1 l2 : List CbTarget) (d : Deferred) :
    call (CbTarget.other v) ctx args = (args, [])
      ∧ callList (l1 ++ CbTarget.other v :: l2) ctx args = callList (l1 ++ l2) ctx args
      ∧ (d.done (CbTarget.other v)).2 = []
      ∧ (d.fail (CbTarget.other v)).2 = []
      ∧ (d.always (CbTarget.other v)).2 = [] := by
  refine ⟨rfl, ?_, ?_, ?_, ?_⟩
  · rw [callList_append, callList_append]
    simp [callList, call]
  · unfold Deferred.done; split
    · simp [call]
    · split <;> rfl
  · unfold Deferred.fail; split
    · simp [call]
    · split <;> rfl
  · unfold Deferred.always; split
    · simp [call]
    · rfl

/-- C9: a firing settlement factors through `Deferred.settled` — the
object whose state is already transitioned, whose arguments are stored
and whose queues are purged — and every callback of the settlement runs
against that object.  Hence a re-entrant settlement during firing is a
no-op, a re-entrant registration during firing fires immediately instead
of being queued or lost, and an interrupted firing (a callback throwing)
still leaves the object settled with its queues discarded. -/
theorem settlement_before_firing (d : Deferred) (e : Events) (a b : List JSVal)
    (i : Nat) (f : JSVal → List JSVal → JSVal)
    (h1 : d.state = PENDING) (h2 : d.events = some e) :
    (d.resolve a
        = ({ d.settled RESOLVED a with
             args := some (callList e.always d.context (callList e.done d.context a).1).1 },
           (callList e.done d.context a).2
             ++ (callList e.always d.context (callList e.done d.context a).1).2))
      ∧ (d.settled RESOLVED a).state = RESOLVED
      ∧ (d.settled RESOLVED a).events = none
      ∧ (d.settled RESOLVED a).args = some a
      ∧ (d.settled RESOLVED a).resolve b = (d.settled RESOLVED a, [])
      ∧ (d.settled RESOLVED a).resolveWith b = (d.settled RESOLVED a, [])
      ∧ (d.settled RESOLVED a).rejectWith b = (d.settled RESOLVED a, [])
      ∧ ((d.settled RESOLVED a).done (CbTarget.fn i f)).2 = [(i, d.context, a)]
      ∧ (d.rejectWith a
          = ({ d.settled REJECTED a with
               args := some (callList e.always d.context (callList e.fail d.context a).1).1 },
             (callList e.fail d.context a).2
               ++ (callList e.always d.context (callList e.fail d.context a).1).2))
      ∧ (d.settled REJECTED a).state = REJECTED
      ∧ (d.settled REJECTED a).events = none
      ∧ ((d.settled REJECTED a).fail (CbTarget.fn i f)).2 = [(i, d.context, a)] := by
  refine ⟨?_, rfl, rfl, rfl, ?_, ?_, ?_, ?_, ?_, rfl, rfl, ?_⟩
  · simp [Deferred.resolve, Deferred.settled, h1, h2]
  · simp [Deferred.resolve, Deferred.settled, RESOLVED, PENDING]
  · simp [Deferred.resolveWith, Deferred.settled, RESOLVED, PENDING]
  · simp [Deferred.rejectWith, Deferred.settled, RESOLVED, PENDING]
  · simp [Deferred.done, Deferred.settled, call]
  · simp [Deferred.rejectWith, Deferred.settled, h1, h2]
  · simp [Deferred.fail, Deferred.settled, call]

/-- Witness for C9: on a fresh Deferred resolved with `[1]`, a re-entrant
`resolve` against the mid-firing object is a no-op and a re-entrant
`done` registration against it fires immediately with the stored context
and arguments. -/
theorem settlement_before_firing_witness :
    (Deferred.init.settled RESOLVED [JSVal.num 1]).resolve [JSVal.num 9]
        = (Deferred.init.settled RESOLVED [JSVal.num 1], [])
      ∧ ((Deferred.init.settled RESOLVED [JSVal.num 1]).done
            (CbTarget.fn 7 fun _ _ => JSVal.undef)).2
          = [(7, Deferred.init.context, [JSVal.num 1])] := by
  have h := settlement_before_firing Deferred.init Events.empty [JSVal.num 1] [JSVal.num 9] 7
    (fun _ _ => JSVal.undef) rfl rfl
  exact ⟨h.2.2.2.2.1, h.2.2.2.2.2.2.2.1⟩

/-- C10 counterexample: the `done` callback returns `5`, so the first
`always` callback fired by the same `resolve` receives `5`; but that
callback returns `7`, and the second `always` callback receives `7` — not
every `always` callback receives the last `done` return value. -/
theorem always_not_all_last_done_value :
    ((((((Deferred.init.done (CbTarget.fn 1 fun _ _ => JSVal.num 5)).1.always
              (CbTarget.fn 2 fun _ _ => JSVal.num 7)).1.always
            (CbTarget.fn 3 fun _ _ => JSVal.undef)).1.resolve [JSVal.num 0]).2)
        = [(1, JSVal.null, [JSVal.num 0]), (2, JSVal.null, [JSVal.num 5]),
           (3, JSVal.null, [JSVal.num 7])])
      ∧ ((((((Deferred.init.done (CbTarget.fn 1 fun _ _ => JSVal.num 5)).1.always
                (CbTarget.fn 2 fun _ _ => JSVal.num 7)).1.always
              (CbTarget.fn 3 fun _ _ => JSVal.undef)).1.resolve [JSVal.num 0]).2)
          ≠ [(1, JSVal.null, [JSVal.num 0]), (2, JSVal.null, [JSVal.num 5]),
             (3, JSVal.null, [JSVal.num 5])]) :=
  ⟨by decide, by decide⟩

/-- C10 amended: the `always` batch of a settlement is fired with the
argument list as mutated by the primary batch; in particular, when the
last `done` callback returns `v ≠ undefined`, the first `always` callback
receives `v` as its first argument (subsequent `always` callbacks may see
values overwritten within the `always` batch itself). -/
theorem always_receives_done_mutation (d : Deferred) (e : Events) (a : List JSVal)
    (ds : List CbTarget) (i j : Nat) (f g : JSVal → List JSVal → JSVal)
    (rest : List CbTarget) (v : JSVal)
    (h1 : d.state = PENDING) (h2 : d.events = some e)
    (h3 : e.done = ds ++ [CbTarget.fn i f])
    (h4 : e.always = CbTarget.fn j g :: rest)
    (h5 : f d.context (callList ds d.context a).1 = v)
    (h6 : v ≠ JSVal.undef) (h7 : a ≠ []) :
    (d.resolve a).2
        = (callList ds d.context a).2
          ++ [(i, d.context, (callList ds d.context a).1)]
          ++ (j, d.context, ((callList ds d.context a).1).set 0 v)
             :: (callList rest d.context
                  (call (CbTarget.fn j g) d.context
                    (((callList ds d.context a).1).set 0 v)).1).2
      ∧ (((callList ds d.context a).1).set 0 v).headD JSVal.undef = v := by
  constructor
  · simp only [Deferred.resolve, h1, if_pos, h2, Option.getD_some]
    rw [h3, h4, callList_append]
    simp [callList, call, h5, h6, Deferred.settled, List.append_assoc]
  · have hlen : ((callList ds d.context a).1).length = a.length :=
      callList_length ds d.context a
    cases hX : (callList ds d.context a).1 with
    | nil =>
      exfalso
      apply h7
      rw [hX] at hlen
      exact (List.eq_nil_of_length_eq_zero hlen.symm)
    | cons x xs => simp [List.set]

/-- A pending Deferred with one `done` callback returning `5` and two
`always` callbacks, the first returning `7`. -/
def dC10 : Deferred :=
  (((Deferred.init.done (CbTarget.fn 1 fun _ _ => JSVal.num 5)).1.always
      (CbTarget.fn 2 fun _ _ => JSVal.num 7)).1.always
    (CbTarget.fn 3 fun _ _ => JSVal.undef)).1

/-- Witness for the amended C10: resolving `dC10` with `[0]` fires the
first `always` callback with first argument `5`, the `done` batch's
return value. -/
theorem always_receives_done_mutation_witness :
    (dC10.resolve [JSVal.num 0]).2
        = (callList [] dC10.context [JSVal.num 0]).2
          ++ [(1, dC10.context, (callList [] dC10.context [JSVal.num 0]).1)]
          ++ (2, dC10.context, ((callList [] dC10.context [JSVal.num 0]).1).set 0 (JSVal.num 5))
             :: (callList [CbTarget.fn 3 fun _ _ => JSVal.undef] dC10.context
                  (call (CbTarget.fn 2 fun _ _ => JSVal.num 7) dC10.context
                    (((callList [] dC10.context [JSVal.num 0]).1).set 0 (JSVal.num 5))).1).2
      ∧ ((((callList [] dC10.context [JSVal.num 0]).1).set 0 (JSVal.num 5)).headD JSVal.undef
          = JSVal.num 5) :=
  always_receives_done_mutation dC10
    ⟨[CbTarget.fn 1 fun _ _ => JSVal.num 5], [],
     [CbTarget.fn 2 fun _ _ => JSVal.num 7, CbTarget.fn 3 fun _ _ => JSVal.undef]⟩
    [JSVal.num 0] [] 1 2 (fun _ _ => JSVal.num 5) (fun _ _ => JSVal.num 7)
    [CbTarget.fn 3 fun _ _ => JSVal.undef] (JSVal.num 5)
    rfl rfl rfl rfl rfl (by decide) (by decide)
